import Mathlib

/-!
Verification of the hyprDrover compositor-IPC core: a shallow embedding of
the event decoder (`src/ipc/hypr_listener.rs`), the command client
(`src/ipc/hypr_commands.rs`) and the restoration orchestrator
(`src/restore/mod.rs`), together with theorems settling the spec claims.

Rust `String`/`&str` values are modelled as `List Char`; machine `i32`
values as `Int` with the i32 range enforced where the code parses them.
External collaborators (the position-restore helper, the dispatch socket)
are modelled as explicit result oracles passed to the orchestrator, and
their invocations are recorded in an action trace.
-/

namespace HyprDrover

/-- Character-list model of Rust strings. -/
abbrev Str := List Char

/-- Conversion from a Lean string literal to the `Str` model. -/
def str (s : String) : Str := s.data

/-- Model of `sep.isPrefixOf s` + `drop sep.len`: strip `sep` from the front
of `s`, returning the remainder, or `none` when `sep` is not a front
segment of `s`. -/
def stripHead : Str → Str → Option Str
  | [], s => some s
  | _ :: _, [] => none
  | p :: ps, c :: cs => if c = p then stripHead ps cs else none

/-- Split `s` at the first occurrence of `sep` (scanning left to right),
returning the part before and the part after, or `none` when `sep` does
not occur.  Models one splitting step of Rust `str::splitn`. -/
def splitFirst (sep : Str) : Str → Option (Str × Str)
  | [] => (stripHead sep []).map (fun r => ([], r))
  | c :: cs =>
    match stripHead sep (c :: cs) with
    | some r => some ([], r)
    | none => (splitFirst sep cs).map (fun p => (c :: p.1, p.2))

/-- Model of Rust `str::splitn(n, sep).collect::<Vec<_>>()`: at most `n`
pieces, the last piece keeps any further separators. -/
def splitn : Nat → Str → Str → List Str
  | 0, _, _ => []
  | 1, _, s => [s]
  | n + 2, sep, s =>
    match splitFirst sep s with
    | none => [s]
    | some (a, b) => a :: splitn (n + 1) sep b

/-- Accumulate the decimal value of a digit run; fails on the first
non-digit character.  Helper for the model of `str::parse::<i32>`. -/
def digitsValAux : Str → Nat → Option Nat
  | [], acc => some acc
  | c :: cs, acc =>
    if c.isDigit then digitsValAux cs (acc * 10 + (c.toNat - 48)) else none

/-- Value of a non-empty all-digit string, `none` otherwise. -/
def digitsVal : Str → Option Nat
  | [] => none
  | c :: cs => digitsValAux (c :: cs) 0

/-- Model of Rust `str::parse::<i32>()`: optional sign, at least one digit,
all digits, value within the i32 range. -/
def parseI32 (s : Str) : Option Int :=
  match s with
  | '+' :: rest =>
    match digitsVal rest with
    | some n => if n ≤ 2147483647 then some (n : Int) else none
    | none => none
  | '-' :: rest =>
    match digitsVal rest with
    | some n => if n ≤ 2147483648 then some (-(n : Int)) else none
    | none => none
  | _ =>
    match digitsVal s with
    | some n => if n ≤ 2147483647 then some (n : Int) else none
    | none => none

/-- The event type of `src/ipc/hypr_listener.rs` (`enum HyprEvent`).  The
Rust field `class` is modelled as `cls` (`class` is a Lean keyword). -/
inductive HyprEvent where
  | workspaceChanged (workspace_id : Int) (workspace_name : Str)
  | focusedMonitor (monitor_name : Str) (workspace_name : Str)
  | activeWindow (cls : Str) (title : Str)
  | windowOpened (address : Str) (workspace : Str) (cls : Str) (title : Str)
  | windowClosed (address : Str)
  | windowMoved (address : Str) (workspace : Str)
  | windowTitleChanged (address : Str) (title : Str)
  | layoutChanged (keyboard : Str) (layout : Str)
  | subMapChanged (submap : Str)
  | fullscreen (state : Bool)
  | monitorAdded (monitor_name : Str)
  | monitorRemoved (monitor_name : Str)
  | createWorkspace (workspace_id : Int) (workspace_name : Str)
  | destroyWorkspace (workspace_id : Int) (workspace_name : Str)
  | moveWorkspace (workspace_id : Int) (workspace_name : Str) (monitor : Str)
  | unknown (raw : Str)
deriving DecidableEq

/-- Dispatch on the event name: the `match event_name` body of
`HyprEvent::parse`, with `line` kept for the `Unknown` fallback. -/
def parseEvent (event_name data line : Str) : HyprEvent :=
  if event_name = str "workspace" then
    match splitn 2 (str ",") data with
    | [f0, f1] =>
      match parseI32 f0 with
      | some id => HyprEvent.workspaceChanged id f1
      | none => HyprEvent.unknown line
    | _ => HyprEvent.unknown line
  else if event_name = str "focusedmon" then
    match splitn 2 (str ",") data with
    | [f0, f1] => HyprEvent.focusedMonitor f0 f1
    | _ => HyprEvent.unknown line
  else if event_name = str "activewindow" then
    match splitn 2 (str ",") data with
    | [f0, f1] => HyprEvent.activeWindow f0 f1
    | _ => HyprEvent.unknown line
  else if event_name = str "openwindow" then
    match splitn 4 (str ",") data with
    | [f0, f1, f2, f3] => HyprEvent.windowOpened f0 f1 f2 f3
    | _ => HyprEvent.unknown line
  else if event_name = str "closewindow" then
    HyprEvent.windowClosed data
  else if event_name = str "movewindow" then
    match splitn 2 (str ",") data with
    | [f0, f1] => HyprEvent.windowMoved f0 f1
    | _ => HyprEvent.unknown line
  else if event_name = str "windowtitle" then
    HyprEvent.windowTitleChanged data []
  else if event_name = str "activelayout" then
    match splitn 2 (str ",") data with
    | [f0, f1] => HyprEvent.layoutChanged f0 f1
    | _ => HyprEvent.unknown line
  else if event_name = str "submap" then
    HyprEvent.subMapChanged data
  else if event_name = str "fullscreen" then
    HyprEvent.fullscreen (data == str "1")
  else if event_name = str "monitoradded" then
    HyprEvent.monitorAdded data
  else if event_name = str "monitorremoved" then
    HyprEvent.monitorRemoved data
  else if event_name = str "createworkspace" then
    match splitn 2 (str ",") data with
    | [f0, f1] =>
      match parseI32 f0 with
      | some id => HyprEvent.createWorkspace id f1
      | none => HyprEvent.unknown line
    | _ => HyprEvent.unknown line
  else if event_name = str "destroyworkspace" then
    match splitn 2 (str ",") data with
    | [f0, f1] =>
      match parseI32 f0 with
      | some id => HyprEvent.destroyWorkspace id f1
      | none => HyprEvent.unknown line
    | _ => HyprEvent.unknown line
  else if event_name = str "moveworkspace" then
    match splitn 3 (str ",") data with
    | [f0, f1, f2] =>
      match parseI32 f0 with
      | some id => HyprEvent.moveWorkspace id f1 f2
      | none => HyprEvent.unknown line
    | _ => HyprEvent.unknown line
  else HyprEvent.unknown line

/-- Model of `HyprEvent::parse`: split the line once on the separator;
anything other than exactly two parts yields the catch-all variant. -/
def parse (line : Str) : HyprEvent :=
  match splitn 2 (str ">>") line with
  | [event_name, data] => parseEvent event_name data line
  | _ => HyprEvent.unknown line

/-- The event names that split their data part, with the declared arity
(the `splitn` bound) used by `HyprEvent::parse`. -/
def multiFieldArity : List (Str × Nat) :=
  [(str "workspace", 2), (str "focusedmon", 2), (str "activewindow", 2),
   (str "openwindow", 4), (str "movewindow", 2), (str "activelayout", 2),
   (str "createworkspace", 2), (str "destroyworkspace", 2),
   (str "moveworkspace", 3)]

/-- ASCII lower-casing of one character; models Rust `to_lowercase` on the
ASCII range (all alias-table keys and class names of interest are ASCII). -/
def lowerChar (c : Char) : Char :=
  if 'A' ≤ c ∧ c ≤ 'Z' then Char.ofNat (c.toNat + 32) else c

/-- ASCII model of Rust `str::to_lowercase`. -/
def toLowerStr (s : Str) : Str := s.map lowerChar

/-- Decimal digits of `n`, fuel-indexed so the recursion is structural;
`fuel = n + 1` always suffices (a number has at most `n + 1` digits). -/
def natToStrAux : Nat → Nat → Str
  | 0, _ => []
  | fuel + 1, n =>
    if n < 10 then [Nat.digitChar n]
    else natToStrAux fuel (n / 10) ++ [Nat.digitChar (n % 10)]

/-- Decimal rendering of a natural number, as Rust `format!` renders it. -/
def natToStr (n : Nat) : Str := natToStrAux (n + 1) n

/-- Decimal rendering of an integer (model of `i32` `Display`). -/
def intToStr (i : Int) : Str :=
  if i < 0 then '-' :: natToStr i.natAbs else natToStr i.toNat

/-- Model of `HyprCommandClient::send_command`: the observable is exactly
the byte string written to the command socket, returned unchanged. -/
def send_command (command : Str) : Str := command

/-- Model of `HyprCommandClient::dispatch`: `format!("dispatch {}", cmd)`. -/
def dispatch (command : Str) : Str := send_command (str "dispatch " ++ command)

/-- Model of `HyprCommandClient::get_json`: `format!("j/{}", cmd)`. -/
def get_json (command : Str) : Str := send_command (str "j/" ++ command)

/-- Model of `HyprCommandClient::focus_workspace`. -/
def focus_workspace (workspace : Int) : Str :=
  dispatch (str "workspace " ++ intToStr workspace)

/-- A saved window entry from the snapshot (the Client Descriptor of the
spec).  Only the fields `restore_session` reads are modelled; the Rust
field `class` is `cls`, and `workspace.id` is `workspace.id` here too. -/
structure WorkspaceRef where
  id : Int
deriving DecidableEq

structure SavedClient where
  cls : Str
  initial_class : Str
  title : Str
  workspace : WorkspaceRef
deriving DecidableEq

/-- A Live Window as consumed by the matcher (`c.class` is the only field
compared; `title` is carried because the code prints it). -/
structure LiveClient where
  cls : Str
  title : Str
deriving DecidableEq

/-- The snapshot handed to `restore_session`. -/
structure SessionSnapshot where
  clients : List SavedClient

/-- Model of `available_clients.iter().position(p)` followed by
`remove(index)`: the first element satisfying `p` together with the list
with exactly that element removed, or `none` when no element matches. -/
def extractFirst {α : Type} (p : α → Bool) : List α → Option (α × List α)
  | [] => none
  | c :: cs =>
    if p c then some (c, cs)
    else (extractFirst p cs).map (fun q => (q.1, c :: q.2))

/-- The matching predicate of `restore_session`:
`c.class == saved_client.class`. -/
def classMatch (s : SavedClient) (c : LiveClient) : Bool := c.cls == s.cls

/-- Model of `resolve_command` in `src/restore/mod.rs`. -/
def resolve_command (cls : Str) : Str :=
  let lower := toLowerStr cls
  if lower = str "brave-browser" then str "brave"
  else if lower = str "code" then str "code"
  else if lower = str "google-chrome" then str "google-chrome-stable"
  else lower

/-- The `raw_name` local of `restore_session`: the initial class when
non-empty, else the class. -/
def launchRawName (s : SavedClient) : Str :=
  if s.initial_class.isEmpty then s.cls else s.initial_class

/-- The `command` local of `restore_session`. -/
def launchCommandName (s : SavedClient) : Str :=
  resolve_command (launchRawName s)

/-- The `workspace_cmd` local of `restore_session`:
`format!("exec [workspace {} silent] {}", id, command)`. -/
def execCmd (s : SavedClient) : Str :=
  ((str "exec [workspace " ++ intToStr s.workspace.id) ++ str " silent] ")
    ++ launchCommandName s

/-- One observable step of a restoration run: either a live window was
claimed for a saved descriptor (and the position-restore collaborator was
invoked), or an exec dispatch was issued for a missing one. -/
inductive RestoreAction where
  | claimed (saved : SavedClient) (window : LiveClient)
  | launched (saved : SavedClient) (cmd : Str)

/-- The observables of a restoration run: the returned result, the ordered
trace of actions, and the final live working set (`available_clients`). -/
structure RunOut where
  res : Except Str Unit
  actions : List RestoreAction
  remaining : List LiveClient

/-- The `for saved_client in &snapshot.clients` loop of `restore_session`.
`posRes` models the external `position::restore_window_position` call
(error payloads as strings); its failure propagates via `?`.  `dispRes`
models `ipc::dispatch`; its failure is only logged (`if let Err`), and the
loop continues either way. -/
def restoreLoop (posRes : LiveClient → SavedClient → Except Str Unit)
    (dispRes : Str → Except Str Unit) :
    List SavedClient → List LiveClient → RunOut
  | [], avail => ⟨Except.ok (), [], avail⟩
  | s :: rest, avail =>
    match extractFirst (classMatch s) avail with
    | some (cur, rem) =>
      match posRes cur s with
      | Except.error e => ⟨Except.error e, [RestoreAction.claimed s cur], rem⟩
      | Except.ok _ =>
        let out := restoreLoop posRes dispRes rest rem
        ⟨out.res, RestoreAction.claimed s cur :: out.actions, out.remaining⟩
    | none =>
      match dispRes (execCmd s) with
      | Except.error _ =>
        let out := restoreLoop posRes dispRes rest avail
        ⟨out.res, RestoreAction.launched s (execCmd s) :: out.actions,
          out.remaining⟩
      | Except.ok _ =>
        let out := restoreLoop posRes dispRes rest avail
        ⟨out.res, RestoreAction.launched s (execCmd s) :: out.actions,
          out.remaining⟩

/-- Model of `restore_session` after the external `capture_state` call:
the captured live clients are passed in as `avail`. -/
def restore_session (posRes : LiveClient → SavedClient → Except Str Unit)
    (dispRes : Str → Except Str Unit)
    (snapshot : SessionSnapshot) (avail : List LiveClient) : RunOut :=
  restoreLoop posRes dispRes snapshot.clients avail

/-- The saved descriptor an action processed. -/
def actionSaved : RestoreAction → SavedClient
  | RestoreAction.claimed s _ => s
  | RestoreAction.launched s _ => s

/-- The live windows claimed along a trace, in order. -/
def claimedWindows : List RestoreAction → List LiveClient
  | [] => []
  | RestoreAction.claimed _ w :: rest => w :: claimedWindows rest
  | RestoreAction.launched _ _ :: rest => claimedWindows rest

/-- Occurrence count of an element in a list (used to state that a live
window is claimed at most once). -/
def countC {α : Type} [DecidableEq α] (w : α) : List α → Nat
  | [] => 0
  | c :: cs => (if c = w then 1 else 0) + countC w cs

/-- Model of `IpcEventListener::listen` on the line sequence the reader
yields before end-of-stream: each line is decoded and the callback is
invoked once per line, synchronously, in wire order.  The callback is
modelled as a state transformer (the `FnMut` closure state). -/
def listen {σ : Type} (lines : List Str) (callback : σ → HyprEvent → σ)
    (s : σ) : σ :=
  match lines with
  | [] => s
  | l :: ls => listen ls callback (callback s (parse l))

/-- Model of `IpcEventListener::listen_filtered`: every line is decoded,
and the callback runs exactly when the predicate holds. -/
def listen_filtered {σ : Type} (lines : List Str)
    (callback : σ → HyprEvent → σ) (pred : HyprEvent → Bool) (s : σ) : σ :=
  match lines with
  | [] => s
  | l :: ls =>
    listen_filtered ls callback pred
      (if pred (parse l) then callback s (parse l) else s)

/-- Position-restore oracle that always succeeds. -/
def posAlwaysOk : LiveClient → SavedClient → Except Str Unit :=
  fun _ _ => Except.ok ()

/-- Position-restore oracle that always fails. -/
def posAlwaysErr : LiveClient → SavedClient → Except Str Unit :=
  fun _ _ => Except.error (str "position restore failed")

/-- Dispatch oracle that always succeeds. -/
def dispAlwaysOk : Str → Except Str Unit := fun _ => Except.ok ()

/-- Dispatch oracle that always fails. -/
def dispAlwaysErr : Str → Except Str Unit :=
  fun _ => Except.error (str "dispatch failed")

/-- A saved firefox descriptor (spec test fixture). -/
def firefoxSaved : SavedClient :=
  ⟨ str "firefox", str "firefox", str "Mozilla Firefox", ⟨2⟩⟩

/-- A live firefox window (spec test fixture). -/
def firefoxLive : LiveClient := ⟨ str "firefox", str "Mozilla Firefox"⟩

/-- A live kitty window (spec test fixture). -/
def kittyLive : LiveClient := ⟨ str "kitty", str "Terminal"⟩

/-- A saved kitty descriptor with empty initial class (spec test fixture). -/
def kittySaved : SavedClient := ⟨ str "kitty", [], str "Terminal", ⟨3⟩⟩

lemma stripHead_append (sep rest : Str) :
    stripHead sep (sep ++ rest) = some rest := by
  induction sep with
  | nil => rfl
  | cons p ps ih => simp [stripHead, ih]

lemma splitFirst_gg (name data : Str) (h : ∀ c ∈ name, c ≠ '>') :
    splitFirst (str ">>") ((name ++ str ">>") ++ data) = some (name, data) := by
  induction name with
  | nil =>
    show splitFirst (str ">>") ('>' :: '>' :: data) = some ([], data)
    have hs : stripHead (str ">>") ('>' :: '>' :: data) = some data :=
      stripHead_append (str ">>") data
    simp [splitFirst, hs]
  | cons c cs ih =>
    have hc : c ≠ '>' := h c (by simp)
    have ih' := ih (fun x hx => h x (by simp [hx]))
    rw [List.append_assoc] at ih'
    rw [List.append_assoc, List.cons_append]
    have hs : stripHead (str ">>") (c :: (cs ++ (str ">>" ++ data))) = none := by
      simp [str, stripHead, hc]
    simp [splitFirst, hs, ih']

lemma splitn_two (sep s : Str) :
    splitn 2 sep s =
      match splitFirst sep s with
      | none => [s]
      | some (a, b) => [a, b] := rfl

lemma splitn_three (sep s : Str) :
    splitn 3 sep s =
      match splitFirst sep s with
      | none => [s]
      | some (a, b) => a ::
        (match splitFirst sep b with
         | none => [b]
         | some (c, d) => [c, d]) := rfl

lemma splitn_four (sep s : Str) :
    splitn 4 sep s =
      match splitFirst sep s with
      | none => [s]
      | some (a, b) => a ::
        (match splitFirst sep b with
         | none => [b]
         | some (c, d) => c ::
           (match splitFirst sep d with
            | none => [d]
            | some (e, f) => [e, f])) := rfl

lemma splitn_two_shape (sep s : Str) :
    splitn 2 sep s = [s] ∨ ∃ a b, splitn 2 sep s = [a, b] := by
  rcases h1 : splitFirst sep s with _ | ⟨a, b⟩
  · exact Or.inl (by simp [splitn_two, h1])
  · exact Or.inr ⟨a, b, by simp [splitn_two, h1]⟩

lemma splitn_three_shape (sep s : Str) :
    splitn 3 sep s = [s] ∨ (∃ a b, splitn 3 sep s = [a, b]) ∨
      ∃ a b c, splitn 3 sep s = [a, b, c] := by
  rcases h1 : splitFirst sep s with _ | ⟨a, b⟩
  · exact Or.inl (by simp [splitn_three, h1])
  · rcases h2 : splitFirst sep b with _ | ⟨c, d⟩
    · exact Or.inr (Or.inl ⟨a, b, by simp [splitn_three, h1, h2]⟩)
    · exact Or.inr (Or.inr ⟨a, c, d, by simp [splitn_three, h1, h2]⟩)

lemma splitn_four_shape (sep s : Str) :
    splitn 4 sep s = [s] ∨ (∃ a b, splitn 4 sep s = [a, b]) ∨
      (∃ a b c, splitn 4 sep s = [a, b, c]) ∨
      ∃ a b c d, splitn 4 sep s = [a, b, c, d] := by
  rcases h1 : splitFirst sep s with _ | ⟨a, b⟩
  · exact Or.inl (by simp [splitn_four, h1])
  · rcases h2 : splitFirst sep b with _ | ⟨c, d⟩
    · exact Or.inr (Or.inl ⟨a, b, by simp [splitn_four, h1, h2]⟩)
    · rcases h3 : splitFirst sep d with _ | ⟨e, f⟩
      · exact Or.inr (Or.inr (Or.inl ⟨a, c, d, by simp [splitn_four, h1, h2, h3]⟩))
      · exact Or.inr (Or.inr (Or.inr ⟨a, c, e, f, by simp [splitn_four, h1, h2, h3]⟩))

lemma parse_name_data (name data : Str) (h : ∀ c ∈ name, c ≠ '>') :
    parse ((name ++ str ">>") ++ data) =
      parseEvent name data ((name ++ str ">>") ++ data) := by
  have hs : splitn 2 (str ">>") ((name ++ str ">>") ++ data) = [name, data] := by
    rw [splitn_two, splitFirst_gg name data h]
  unfold parse
  rw [hs]

/-- C6: for every data string `D`, decoding `"windowtitle>>" ++ D` yields a
window-title-changed event with address `D` and the empty title; in
particular `"windowtitle>>0xabc"` decodes to address `"0xabc"` with an
empty title. -/
theorem C6_windowtitle_empty_title :
    (∀ D : Str, parse ((str "windowtitle>>") ++ D)
       = HyprEvent.windowTitleChanged D []) ∧
    parse (str "windowtitle>>0xabc")
      = HyprEvent.windowTitleChanged (str "0xabc") [] := by
  constructor
  · intro D
    have h : (str "windowtitle>>") ++ D = ((str "windowtitle" ++ str ">>") ++ D) := rfl
    rw [h, parse_name_data _ _ (by decide)]
    simp +decide [parseEvent]
  · decide

/-- C10: for every data string `D`, decoding `"fullscreen>>" ++ D` yields a
fullscreen event whose state is true exactly when `D = "1"` and false for
every other `D` (including `"2"` and `"abc"`); a fullscreen line never
falls back to the catch-all variant. -/
theorem C10_fullscreen_state :
    (∀ D : Str, parse ((str "fullscreen>>") ++ D)
       = HyprEvent.fullscreen (D == str "1")) ∧
    (∀ D : Str, ((D == str "1") = true) ↔ D = str "1") ∧
    parse (str "fullscreen>>1") = HyprEvent.fullscreen true ∧
    parse (str "fullscreen>>2") = HyprEvent.fullscreen false ∧
    parse (str "fullscreen>>abc") = HyprEvent.fullscreen false := by
  refine ⟨?_, ?_, by decide, by decide, by decide⟩
  · intro D
    have h : (str "fullscreen>>") ++ D = ((str "fullscreen" ++ str ">>") ++ D) := rfl
    rw [h, parse_name_data _ _ (by decide)]
    simp +decide [parseEvent]
  · intro D
    exact beq_iff_eq

/-- C1: the decoder is total (a function on all lines by construction) and
falls back to the catch-all variant carrying the original line unchanged:
when the line lacks the `>>` separator; when the data part of a recognized
multi-field event name splits to a field count different from its declared
arity; and when a declared-numeric first field (workspace id) fails to
parse as an integer. -/
theorem C1_decoder_total_fallback :
    (∀ line : Str, splitFirst (str ">>") line = none →
      parse line = HyprEvent.unknown line) ∧
    (∀ name a data, (name, a) ∈ multiFieldArity →
      (splitn a (str ",") data).length ≠ a →
      parse ((name ++ str ">>") ++ data)
        = HyprEvent.unknown ((name ++ str ">>") ++ data)) ∧
    (∀ name data f0 f1,
      name ∈ [ str "workspace", str "createworkspace", str "destroyworkspace"] →
      splitn 2 (str ",") data = [f0, f1] → parseI32 f0 = none →
      parse ((name ++ str ">>") ++ data)
        = HyprEvent.unknown ((name ++ str ">>") ++ data)) ∧
    (∀ data f0 f1 f2, splitn 3 (str ",") data = [f0, f1, f2] →
      parseI32 f0 = none →
      parse ((str "moveworkspace" ++ str ">>") ++ data)
        = HyprEvent.unknown ((str "moveworkspace" ++ str ">>") ++ data)) := by
  refine ⟨?_, ?_, ?_, ?_⟩
  · intro line h
    unfold parse
    rw [splitn_two, h]
  · intro name a data hmem hlen
    fin_cases hmem
    · rcases splitn_two_shape (str ",") data with hs | ⟨x, y, hs⟩
      · rw [parse_name_data _ _ (by decide)]; simp +decide [parseEvent, hs]
      · exact absurd (by rw [hs] ; rfl) hlen
    · rcases splitn_two_shape (str ",") data with hs | ⟨x, y, hs⟩
      · rw [parse_name_data _ _ (by decide)]; simp +decide [parseEvent, hs]
      · exact absurd (by rw [hs] ; rfl) hlen
    · rcases splitn_two_shape (str ",") data with hs | ⟨x, y, hs⟩
      · rw [parse_name_data _ _ (by decide)]; simp +decide [parseEvent, hs]
      · exact absurd (by rw [hs] ; rfl) hlen
    · rcases splitn_four_shape (str ",") data with hs | ⟨x, y, hs⟩ |
        ⟨x, y, z, hs⟩ | ⟨x, y, z, w, hs⟩
      · rw [parse_name_data _ _ (by decide)]; simp +decide [parseEvent, hs]
      · rw [parse_name_data _ _ (by decide)]; simp +decide [parseEvent, hs]
      · rw [parse_name_data _ _ (by decide)]; simp +decide [parseEvent, hs]
      · exact absurd (by rw [hs] ; rfl) hlen
    · rcases splitn_two_shape (str ",") data with hs | ⟨x, y, hs⟩
      · rw [parse_name_data _ _ (by decide)]; simp +decide [parseEvent, hs]
      · exact absurd (by rw [hs] ; rfl) hlen
    · rcases splitn_two_shape (str ",") data with hs | ⟨x, y, hs⟩
      · rw [parse_name_data _ _ (by decide)]; simp +decide [parseEvent, hs]
      · exact absurd (by rw [hs] ; rfl) hlen
    · rcases splitn_two_shape (str ",") data with hs | ⟨x, y, hs⟩
      · rw [parse_name_data _ _ (by decide)]; simp +decide [parseEvent, hs]
      · exact absurd (by rw [hs] ; rfl) hlen
    · rcases splitn_two_shape (str ",") data with hs | ⟨x, y, hs⟩
      · rw [parse_name_data _ _ (by decide)]; simp +decide [parseEvent, hs]
      · exact absurd (by rw [hs] ; rfl) hlen
    · rcases splitn_three_shape (str ",") data with hs | ⟨x, y, hs⟩ | ⟨x, y, z, hs⟩
      · rw [parse_name_data _ _ (by decide)]; simp +decide [parseEvent, hs]
      · rw [parse_name_data _ _ (by decide)]; simp +decide [parseEvent, hs]
      · exact absurd (by rw [hs] ; rfl) hlen
  · intro name data f0 f1 hmem hsp hnum
    simp only [List.mem_cons, List.mem_singleton, List.not_mem_nil, or_false] at hmem
    rcases hmem with rfl | rfl | rfl
    · rw [parse_name_data _ _ (by decide)]; simp +decide [parseEvent, hsp, hnum]
    · rw [parse_name_data _ _ (by decide)]; simp +decide [parseEvent, hsp, hnum]
    · rw [parse_name_data _ _ (by decide)]; simp +decide [parseEvent, hsp, hnum]
  · intro data f0 f1 f2 hsp hnum
    rw [parse_name_data _ _ (by decide)]
    simp +decide [parseEvent, hsp, hnum]

/-- Witness for C1: concrete lines exercising each fallback branch. -/
theorem C1_decoder_total_fallback_witness :
    parse (str "hello world") = HyprEvent.unknown (str "hello world") ∧
    parse ((str "workspace" ++ str ">>") ++ str "nocomma")
      = HyprEvent.unknown ((str "workspace" ++ str ">>") ++ str "nocomma") ∧
    parse ((str "workspace" ++ str ">>") ++ str "abc,main")
      = HyprEvent.unknown ((str "workspace" ++ str ">>") ++ str "abc,main") ∧
    parse ((str "moveworkspace" ++ str ">>") ++ str "x,main,DP-1")
      = HyprEvent.unknown ((str "moveworkspace" ++ str ">>") ++ str "x,main,DP-1") :=
  ⟨C1_decoder_total_fallback.1 (str "hello world") (by decide),
   C1_decoder_total_fallback.2.1 (str "workspace") 2 (str "nocomma")
     (by decide) (by decide),
   C1_decoder_total_fallback.2.2.1 (str "workspace") (str "abc,main")
     (str "abc") (str "main") (by decide) (by decide) (by decide),
   C1_decoder_total_fallback.2.2.2 (str "x,main,DP-1") (str "x") (str "main")
     (str "DP-1") (by decide) (by decide)⟩

/-- C9: command templates are byte-exact pure string formatting: `dispatch`
sends exactly `"dispatch " ++ op`, `get_json` sends exactly `"j/" ++ key`;
in particular `focus_workspace 3` sends exactly `"dispatch workspace 3"`
and `get_json "clients"` sends exactly `"j/clients"`. -/
theorem C9_command_templates :
    (∀ op : Str, dispatch op = str "dispatch " ++ op) ∧
    (∀ key : Str, get_json key = str "j/" ++ key) ∧
    focus_workspace 3 = str "dispatch workspace 3" ∧
    get_json (str "clients") = str "j/clients" :=
  ⟨fun _ => rfl, fun _ => rfl, by decide, by decide⟩

/-- The launch-name computation exactly as the claim states it: initial
class when non-empty else class, lower-cased, passed through the alias
table, anything else verbatim in lower-cased form.  Stated from the
claim's words, to be compared with the source-derived
`launchCommandName`. -/
def launchNameSpec (s : SavedClient) : Str :=
  let base := if s.initial_class ≠ [] then s.initial_class else s.cls
  let lower := toLowerStr base
  if lower = str "brave-browser" then str "brave"
  else if lower = str "code" then str "code"
  else if lower = str "google-chrome" then str "google-chrome-stable"
  else lower

/-- C7: for every descriptor, the launch executable name computed by the
orchestrator (`resolve_command` applied to the initial class when
non-empty, else the class) equals the claim's stated computation. -/
theorem C7_launch_name_resolution :
    ∀ s : SavedClient, launchCommandName s = launchNameSpec s := by
  intro s
  unfold launchCommandName launchRawName resolve_command launchNameSpec
  rcases h : s.initial_class with _ | ⟨c, cs⟩ <;> simp [h, List.isEmpty]

/-- C8: `listen` invokes the sink once per line, synchronously, in wire
order (its sink trace is the per-line decode of the input); the filtered
variant's trace is exactly the decoded events on which the predicate
holds, in order; with an always-true predicate the two traces coincide. -/
theorem C8_listener_order_filter :
    (∀ lines : List Str,
      listen lines (fun acc e => acc ++ [e]) [] = lines.map parse) ∧
    (∀ (lines : List Str) (pred : HyprEvent → Bool),
      listen_filtered lines (fun acc e => acc ++ [e]) pred []
        = (lines.map parse).filter pred) ∧
    (∀ lines : List Str,
      listen_filtered lines (fun acc e => acc ++ [e]) (fun _ => true) []
        = listen lines (fun acc e => acc ++ [e]) []) := by
  have hl : ∀ (lines : List Str) (acc : List HyprEvent),
      listen lines (fun acc e => acc ++ [e]) acc = acc ++ lines.map parse := by
    intro lines
    induction lines with
    | nil => intro acc; simp [listen]
    | cons l ls ih => intro acc; simp [listen, ih]
  have hf : ∀ (lines : List Str) (pred : HyprEvent → Bool) (acc : List HyprEvent),
      listen_filtered lines (fun acc e => acc ++ [e]) pred acc
        = acc ++ (lines.map parse).filter pred := by
    intro lines pred
    induction lines with
    | nil => intro acc; simp [listen_filtered]
    | cons l ls ih =>
      intro acc
      by_cases hp : pred (parse l)
      · simp [listen_filtered, hp, ih, List.filter_cons]
      · simp [listen_filtered, hp, ih, List.filter_cons]
  refine ⟨fun lines => by simpa using hl lines [],
    fun lines pred => by simpa using hf lines pred [], fun lines => ?_⟩
  rw [hf lines (fun _ => true) [], hl lines []]
  simp

lemma extractFirst_some_eq {α : Type} {p : α → Bool} :
    ∀ {l : List α} {c : α} {r : List α}, extractFirst p l = some (c, r) →
      ∃ l1 l2, l = l1 ++ c :: l2 ∧ r = l1 ++ l2 ∧
        (∀ x ∈ l1, p x = false) ∧ p c = true := by
  intro l
  induction l with
  | nil => intro c r h; simp [extractFirst] at h
  | cons a t ih =>
    intro c r h
    by_cases hp : p a = true
    · simp [extractFirst, hp] at h
      obtain ⟨rfl, rfl⟩ := h
      exact ⟨[], t, rfl, rfl, by simp, hp⟩
    · simp [extractFirst, hp, Option.map_eq_some'] at h
      obtain ⟨m, r', hm, hq1, hq2⟩ := h
      obtain ⟨l1, l2, hdec, hrem, hall, hpc⟩ := ih hm
      subst hq2
      subst hq1
      refine ⟨a :: l1, l2, by simp [hdec], by simp [hrem], ?_, hpc⟩
      intro x hx
      rcases List.mem_cons.1 hx with rfl | hx'
      · simpa using hp
      · exact hall x hx'

lemma countC_append {α : Type} [DecidableEq α] (w : α) (a b : List α) :
    countC w (a ++ b) = countC w a + countC w b := by
  induction a with
  | nil => simp [countC]
  | cons x xs ih => simp [countC, ih, Nat.add_assoc]

lemma extractFirst_countC {α : Type} [DecidableEq α] {p : α → Bool}
    {l : List α} {c : α} {r : List α}
    (h : extractFirst p l = some (c, r)) (w : α) :
    countC w l = (if c = w then 1 else 0) + countC w r := by
  obtain ⟨l1, l2, rfl, rfl, _, _⟩ := extractFirst_some_eq h
  simp [countC_append, countC]
  omega

lemma restoreLoop_cons_matched_err (posRes : LiveClient → SavedClient → Except Str Unit)
    (dispRes : Str → Except Str Unit) (s : SavedClient) (rest : List SavedClient)
    (avail : List LiveClient) (cur : LiveClient) (rem : List LiveClient) (e : Str)
    (hE : extractFirst (classMatch s) avail = some (cur, rem))
    (hP : posRes cur s = Except.error e) :
    restoreLoop posRes dispRes (s :: rest) avail
      = ⟨Except.error e, [RestoreAction.claimed s cur], rem⟩ := by
  simp [restoreLoop, hE, hP]

lemma restoreLoop_cons_matched_ok (posRes : LiveClient → SavedClient → Except Str Unit)
    (dispRes : Str → Except Str Unit) (s : SavedClient) (rest : List SavedClient)
    (avail : List LiveClient) (cur : LiveClient) (rem : List LiveClient)
    (hE : extractFirst (classMatch s) avail = some (cur, rem))
    (hP : posRes cur s = Except.ok ()) :
    restoreLoop posRes dispRes (s :: rest) avail
      = ⟨(restoreLoop posRes dispRes rest rem).res,
         RestoreAction.claimed s cur :: (restoreLoop posRes dispRes rest rem).actions,
         (restoreLoop posRes dispRes rest rem).remaining⟩ := by
  simp [restoreLoop, hE, hP]

lemma restoreLoop_cons_unmatched (posRes : LiveClient → SavedClient → Except Str Unit)
    (dispRes : Str → Except Str Unit) (s : SavedClient) (rest : List SavedClient)
    (avail : List LiveClient)
    (hE : extractFirst (classMatch s) avail = none) :
    restoreLoop posRes dispRes (s :: rest) avail
      = ⟨(restoreLoop posRes dispRes rest avail).res,
         RestoreAction.launched s (execCmd s) :: (restoreLoop posRes dispRes rest avail).actions,
         (restoreLoop posRes dispRes rest avail).remaining⟩ := by
  rcases hD : dispRes (execCmd s) with e | u <;> simp [restoreLoop, hE, hD]

lemma restoreLoop_invariants (posRes : LiveClient → SavedClient → Except Str Unit)
    (dispRes : Str → Except Str Unit) :
    ∀ (saved : List SavedClient) (avail : List LiveClient),
      ((restoreLoop posRes dispRes saved avail).res = Except.ok () →
        (restoreLoop posRes dispRes saved avail).actions.map actionSaved = saved) ∧
      (∃ t, saved
          = (restoreLoop posRes dispRes saved avail).actions.map actionSaved ++ t) ∧
      (∀ w, countC w (claimedWindows (restoreLoop posRes dispRes saved avail).actions)
          + countC w (restoreLoop posRes dispRes saved avail).remaining
          = countC w avail) := by
  intro saved
  induction saved with
  | nil =>
    intro avail
    exact ⟨fun _ => rfl, ⟨[], rfl⟩, fun w => by simp [restoreLoop, claimedWindows, countC]⟩
  | cons s rest ih =>
    intro avail
    rcases hE : extractFirst (classMatch s) avail with _ | ⟨cur, rem⟩
    · rw [restoreLoop_cons_unmatched posRes dispRes s rest avail hE]
      obtain ⟨ih1, ⟨t, ih2⟩, ih3⟩ := ih avail
      refine ⟨fun hok => ?_, ⟨t, ?_⟩, fun w => ?_⟩
      · simp [actionSaved] at hok ⊢
        exact ih1 hok
      · simpa [actionSaved] using congrArg (List.cons s) ih2
      · simpa [claimedWindows] using ih3 w
    · rcases hP : posRes cur s with e | u
      · rw [restoreLoop_cons_matched_err posRes dispRes s rest avail cur rem e hE hP]
        refine ⟨fun hok => ?_, ⟨rest, ?_⟩, fun w => ?_⟩
        · simp at hok
        · simp [actionSaved]
        · have hcnt := extractFirst_countC hE w
          by_cases hcw : cur = w <;>
            simp [claimedWindows, countC, hcw] at hcnt ⊢ <;> omega
      · rw [restoreLoop_cons_matched_ok posRes dispRes s rest avail cur rem hE hP]
        obtain ⟨ih1, ⟨t, ih2⟩, ih3⟩ := ih rem
        refine ⟨fun hok => ?_, ⟨t, ?_⟩, fun w => ?_⟩
        · simp [actionSaved] at hok ⊢
          exact ih1 hok
        · simpa [actionSaved] using congrArg (List.cons s) ih2
        · have hcnt := extractFirst_countC hE w
          have hC := ih3 w
          by_cases hcw : cur = w <;>
            simp [claimedWindows, countC, hcw] at hcnt ⊢ <;> omega

lemma restoreLoop_all_ok (posRes : LiveClient → SavedClient → Except Str Unit)
    (dispRes : Str → Except Str Unit)
    (hpos : ∀ c s, posRes c s = Except.ok ()) :
    ∀ (saved : List SavedClient) (avail : List LiveClient),
      (restoreLoop posRes dispRes saved avail).res = Except.ok () := by
  intro saved
  induction saved with
  | nil => intro avail; rfl
  | cons s rest ih =>
    intro avail
    rcases hE : extractFirst (classMatch s) avail with _ | ⟨cur, rem⟩
    · rw [restoreLoop_cons_unmatched posRes dispRes s rest avail hE]
      exact ih avail
    · rw [restoreLoop_cons_matched_ok posRes dispRes s rest avail cur rem hE (hpos cur s)]
      exact ih rem

/-- C2: a position-restore failure on a matched descriptor aborts the whole
run with that error (the trace stops at that descriptor and no later
descriptor is processed), while an exec-dispatch failure on an unmatched
descriptor does not abort: the run continues with the next descriptor,
and with no further descriptors `restore_session` still returns success. -/
theorem C2_restore_failure_asymmetry :
    ∀ (posRes : LiveClient → SavedClient → Except Str Unit)
      (dispRes : Str → Except Str Unit) (s : SavedClient)
      (rest : List SavedClient) (avail : List LiveClient)
      (cur : LiveClient) (rem : List LiveClient) (e : Str),
      (extractFirst (classMatch s) avail = some (cur, rem) →
        posRes cur s = Except.error e →
        restoreLoop posRes dispRes (s :: rest) avail
          = ⟨Except.error e, [RestoreAction.claimed s cur], rem⟩) ∧
      (extractFirst (classMatch s) avail = none →
        dispRes (execCmd s) = Except.error e →
        restoreLoop posRes dispRes (s :: rest) avail
          = ⟨(restoreLoop posRes dispRes rest avail).res,
             RestoreAction.launched s (execCmd s)
               :: (restoreLoop posRes dispRes rest avail).actions,
             (restoreLoop posRes dispRes rest avail).remaining⟩) ∧
      (extractFirst (classMatch s) avail = none →
        (restoreLoop posRes dispRes [s] avail).res = Except.ok ()) := by
  intro posRes dispRes s rest avail cur rem e
  refine ⟨restoreLoop_cons_matched_err posRes dispRes s rest avail cur rem e,
    fun hE _ => restoreLoop_cons_unmatched posRes dispRes s rest avail hE,
    fun hE => ?_⟩
  rw [restoreLoop_cons_unmatched posRes dispRes s [] avail hE]
  rfl

/-- Witness for C2: a failing position restore aborts a two-descriptor run
after the first; a failing dispatch still yields a successful run. -/
theorem C2_restore_failure_asymmetry_witness :
    restoreLoop posAlwaysErr dispAlwaysOk [firefoxSaved, kittySaved] [firefoxLive]
      = ⟨Except.error (str "position restore failed"),
         [RestoreAction.claimed firefoxSaved firefoxLive], []⟩ ∧
    (restoreLoop posAlwaysOk dispAlwaysErr [kittySaved] []).res = Except.ok () :=
  ⟨(C2_restore_failure_asymmetry posAlwaysErr dispAlwaysOk firefoxSaved
      [kittySaved] [firefoxLive] firefoxLive []
      (str "position restore failed")).1 rfl rfl,
   (C2_restore_failure_asymmetry posAlwaysOk dispAlwaysErr kittySaved [] []
      kittyLive [] (str "dispatch failed")).2.2 rfl⟩

/-- C3: a restoration run processes the saved descriptors exactly once, in
snapshot order (the action trace projects to the snapshot whenever the
external position restores all succeed, and is always an order-preserving
run over a front segment of the snapshot), and every live window is
claimed by at most one descriptor: the count of each window among the
claims plus its count in the final working set equals its count in the
initial working set. -/
theorem C3_process_once_claim_once :
    ∀ (posRes : LiveClient → SavedClient → Except Str Unit)
      (dispRes : Str → Except Str Unit) (snap : SessionSnapshot)
      (avail : List LiveClient),
      ((∀ c s, posRes c s = Except.ok ()) →
        (restore_session posRes dispRes snap avail).actions.map actionSaved
          = snap.clients) ∧
      (∃ t, snap.clients
          = (restore_session posRes dispRes snap avail).actions.map actionSaved
            ++ t) ∧
      (∀ w, countC w
            (claimedWindows (restore_session posRes dispRes snap avail).actions)
          + countC w (restore_session posRes dispRes snap avail).remaining
          = countC w avail) := by
  intro posRes dispRes snap avail
  obtain ⟨h1, h2, h3⟩ := restoreLoop_invariants posRes dispRes snap.clients avail
  exact ⟨fun hpos => h1 (restoreLoop_all_ok posRes dispRes hpos snap.clients avail),
    h2, h3⟩

/-- Witness for C3: a two-descriptor snapshot against a two-window set is
processed exactly once each, and the firefox window is claimed once. -/
theorem C3_process_once_claim_once_witness :
    (restore_session posAlwaysOk dispAlwaysOk ⟨[firefoxSaved, kittySaved]⟩
        [kittyLive, firefoxLive]).actions.map actionSaved
      = [firefoxSaved, kittySaved] ∧
    countC firefoxLive
        (claimedWindows (restore_session posAlwaysOk dispAlwaysOk
          ⟨[firefoxSaved, kittySaved]⟩ [kittyLive, firefoxLive]).actions)
      + countC firefoxLive (restore_session posAlwaysOk dispAlwaysOk
          ⟨[firefoxSaved, kittySaved]⟩ [kittyLive, firefoxLive]).remaining
      = countC firefoxLive [kittyLive, firefoxLive] :=
  ⟨(C3_process_once_claim_once posAlwaysOk dispAlwaysOk
      ⟨[firefoxSaved, kittySaved]⟩ [kittyLive, firefoxLive]).1 (fun _ _ => rfl),
   (C3_process_once_claim_once posAlwaysOk dispAlwaysOk
      ⟨[firefoxSaved, kittySaved]⟩ [kittyLive, firefoxLive]).2.2 firefoxLive⟩

/-- C4: for a descriptor whose class matches no remaining live window, the
step issues exactly one dispatch command, of the exact form
`exec [workspace <id> silent] <command>` with the descriptor's saved
workspace id, and the working set passed to the remaining descriptors is
unchanged. -/
theorem C4_unmatched_descriptor_dispatch :
    ∀ (posRes : LiveClient → SavedClient → Except Str Unit)
      (dispRes : Str → Except Str Unit) (s : SavedClient)
      (rest : List SavedClient) (avail : List LiveClient),
      extractFirst (classMatch s) avail = none →
      restoreLoop posRes dispRes (s :: rest) avail
        = ⟨(restoreLoop posRes dispRes rest avail).res,
           RestoreAction.launched s (execCmd s)
             :: (restoreLoop posRes dispRes rest avail).actions,
           (restoreLoop posRes dispRes rest avail).remaining⟩ ∧
      execCmd s
        = ((str "exec [workspace " ++ intToStr s.workspace.id) ++ str " silent] ")
          ++ resolve_command (if s.initial_class.isEmpty then s.cls
              else s.initial_class) := by
  intro posRes dispRes s rest avail hE
  exact ⟨restoreLoop_cons_unmatched posRes dispRes s rest avail hE, rfl⟩

/-- Witness for C4: a kitty descriptor with no matching window dispatches
exactly one exec command on workspace 3, leaving the working set as it
was. -/
theorem C4_unmatched_descriptor_dispatch_witness :
    restoreLoop posAlwaysOk dispAlwaysOk [kittySaved] [firefoxLive]
      = ⟨Except.ok (), [RestoreAction.launched kittySaved (execCmd kittySaved)],
         [firefoxLive]⟩ ∧
    execCmd kittySaved = str "exec [workspace 3 silent] kitty" := by
  have h := (C4_unmatched_descriptor_dispatch posAlwaysOk dispAlwaysOk
    kittySaved [] [firefoxLive] rfl).1
  exact ⟨h, by decide⟩

/-- C5: a matched descriptor claims the first remaining live window whose
class is exactly equal to its class (everything before it in the working
set has a different class; no title comparison), removes exactly that
window, and its step records a claim, not a launch. -/
theorem C5_exact_first_match_claim :
    ∀ (posRes : LiveClient → SavedClient → Except Str Unit)
      (dispRes : Str → Except Str Unit) (s : SavedClient)
      (rest : List SavedClient) (avail : List LiveClient)
      (cur : LiveClient) (rem : List LiveClient),
      extractFirst (classMatch s) avail = some (cur, rem) →
      (cur.cls = s.cls ∧
        ∃ l1 l2, avail = l1 ++ cur :: l2 ∧ rem = l1 ++ l2 ∧
          ∀ x ∈ l1, ¬ x.cls = s.cls) ∧
      (posRes cur s = Except.ok () →
        restoreLoop posRes dispRes (s :: rest) avail
          = ⟨(restoreLoop posRes dispRes rest rem).res,
             RestoreAction.claimed s cur
               :: (restoreLoop posRes dispRes rest rem).actions,
             (restoreLoop posRes dispRes rest rem).remaining⟩) := by
  intro posRes dispRes s rest avail cur rem hE
  obtain ⟨l1, l2, hdec, hrem, hall, hpc⟩ := extractFirst_some_eq hE
  refine ⟨⟨by simpa [classMatch] using hpc,
    ⟨l1, l2, hdec, hrem, fun x hx => by simpa [classMatch] using hall x hx⟩⟩,
    fun hP => restoreLoop_cons_matched_ok posRes dispRes s rest avail cur rem hE hP⟩

/-- Witness for C5: one firefox descriptor against one live firefox window
claims that window and issues no launch. -/
theorem C5_exact_first_match_claim_witness :
    firefoxLive.cls = firefoxSaved.cls ∧
    restoreLoop posAlwaysOk dispAlwaysOk [firefoxSaved] [firefoxLive]
      = ⟨Except.ok (), [RestoreAction.claimed firefoxSaved firefoxLive], []⟩ :=
  ⟨(C5_exact_first_match_claim posAlwaysOk dispAlwaysOk firefoxSaved []
      [firefoxLive] firefoxLive [] rfl).1.1,
   (C5_exact_first_match_claim posAlwaysOk dispAlwaysOk firefoxSaved []
      [firefoxLive] firefoxLive [] rfl).2 rfl⟩

end HyprDrover
